import Mathlib

/-!
Shallow embedding of the reference-counted region allocator in
`src/library.c` / `src/library.h` (a lazy, deferred-reclamation
"garbage collector").

Heap nodes are modelled by records carrying a numeric identity (`rid`,
`refid`), standing for the node's address; the two intrusive doubly-linked
lists become Lean lists (head first, insertion at the head is `::`,
unlinking a node is erasure — the mutual prev/next consistency check of
`gc_unlink_region` / `gc_unlink_ref` always passes on a well-formed list).
`size_t` values are natural numbers; the one place where machine overflow
is observable to a caller (the `offset + nbytes` bounds check of
`gc_write` / `gc_read`) computes modulo `2 ^ 64`.  `calloc` fallibility is
an explicit oracle (`Bool` flags), and `rand()` is an oracle argument `r`.
Undefined behaviour of the C source (dangling handles) is modelled as a
no-op / failure and never relied upon by a theorem.
-/

namespace GarbageCollector

/-- Width of `size_t` on the usual 64-bit target: arithmetic on it wraps
modulo this constant. -/
def sizetMod : Nat := 2 ^ 64

/-- `struct GCRegion`: payload pointer plus size and live-reference count.
`rid` models the node's address (its identity); `data` models the payload
bytes behind `ptr` (zero-filled by `calloc`). -/
structure GCRegion where
  rid : Nat
  size : Nat
  strong_refs : Nat
  data : List Nat
deriving DecidableEq

/-- `struct GCRef`: a strong reference node.  `refid` models the node's
address, `region` is the `rid` of the target region. -/
structure GCRef where
  refid : Nat
  region : Nat
deriving DecidableEq

/-- The global `GC` state of `library.c` together with the global
`next_collect` countdown and a freshness counter modelling the allocator
returning pairwise distinct addresses. -/
structure GCState where
  regions : List GCRegion
  refs : List GCRef
  region_count : Nat
  ref_count : Nat
  bytes_in_use : Nat
  next_collect : Nat
  fresh : Nat
deriving DecidableEq

/-- The initial global state: `GC = {nullptr, nullptr, 0, 0, 0}` and
`int next_collect = 0`. -/
def initState : GCState := ⟨[], [], 0, 0, 0, 0, 0⟩

/-- `gc_make_region`: allocate the bookkeeping node and the zero-filled
payload (each allocation may fail), account `bytes_in_use += size`, link
the region at the head of the region list.  Note that `region_count` is
not touched, exactly as in the source. -/
def gc_make_region (s : GCState) (size : Nat) (failNode failPayload : Bool) :
    Option (GCState × Nat) :=
  if failNode then none
  else if failPayload then none
  else
    some ({ s with
              bytes_in_use := s.bytes_in_use + size,
              regions := ⟨s.fresh, size, 0, List.replicate size 0⟩ :: s.regions,
              fresh := s.fresh + 1 }, s.fresh)

/-- Increment `strong_refs` of the region whose address is `t`
(`reg->strong_refs++`). -/
def bumpStrong (regions : List GCRegion) (t : Nat) : List GCRegion :=
  regions.map (fun g => if g.rid == t then { g with strong_refs := g.strong_refs + 1 } else g)

/-- `gc_make_ref`: allocate a reference node (may fail), link it at the
head of the reference list, `GC.ref_count++`, `reg->strong_refs++`.
The `!reg` null check of the source is discharged by the callers in this
model (both callers pass a region that exists). -/
def gc_make_ref (s : GCState) (t : Nat) (failNode : Bool) :
    Option (GCState × Nat) :=
  if failNode then none
  else
    some ({ s with
              refs := ⟨s.fresh, t⟩ :: s.refs,
              ref_count := s.ref_count + 1,
              regions := bumpStrong s.regions t,
              fresh := s.fresh + 1 }, s.fresh)

/-- `gc_alloc`: make a region, then a reference into it.  When the region
is created but the reference node allocation fails, the region stays
linked (exactly as in the source, which returns without unlinking it). -/
def gc_alloc (s : GCState) (size : Nat)
    (failRegionNode failPayload failRefNode : Bool) : GCState × Option Nat :=
  match gc_make_region s size failRegionNode failPayload with
  | none => (s, none)
  | some (s1, rid) =>
    match gc_make_ref s1 rid failRefNode with
    | none => (s1, none)
    | some (s2, refid) => (s2, some refid)

/-- `gc_new_ref`: null and validity checks, then `gc_make_ref` on the same
region.  A dangling (freed) handle is undefined behaviour in C; the model
returns failure there and no theorem relies on that case. -/
def gc_new_ref (s : GCState) (slot : Option Nat) (failNode : Bool) :
    GCState × Option Nat :=
  match slot with
  | none => (s, none)
  | some q =>
    match s.refs.find? (fun f => f.refid == q) with
    | none => (s, none)
    | some ref =>
      match gc_make_ref s ref.region failNode with
      | none => (s, none)
      | some (s1, refid) => (s1, some refid)

/-- The `gc_collect` walk.  The C loop keeps a cursor into the region
list; `pre` is the already-visited prefix, `c :: rest` the cursor suffix.
Unlinking the cursor (`gc_unlink_region`: erase the node, subtract its
size from `bytes_in_use`) restarts the walk from the new head
(`cur = GC.regions_head; continue`), i.e. from `([], pre ++ rest)`.
The loop is structurally recursive on an explicit step budget `fuel`;
`gc_collect` below always supplies a budget that is strictly larger than
the measure `(pre.length + l.length) ^ 2 + l.length`, which decreases at
every iteration, so the out-of-budget branch is unreachable
(`collectGo_spec` is proved under that bound). -/
def collectGo : Nat → List GCRegion → List GCRegion → Nat → List GCRegion × Nat
  | 0, pre, l, bytes => (pre ++ l, bytes)
  | _ + 1, pre, [], bytes => (pre, bytes)
  | fuel + 1, pre, c :: rest, bytes =>
    if c.strong_refs == 0 then collectGo fuel [] (pre ++ rest) (bytes - c.size)
    else collectGo fuel (pre ++ [c]) rest bytes

/-- `gc_collect`: reclaim every region whose `strong_refs` is zero.
Neither `region_count` nor `ref_count` is touched, as in the source. -/
def gc_collect (s : GCState) : GCState :=
  let p := collectGo ((s.regions.length + 1) * (s.regions.length + 1))
    [] s.regions s.bytes_in_use
  { s with regions := p.1, bytes_in_use := p.2 }

/-- Decrement `strong_refs` of the region whose address is `t`
(`ref->region->strong_refs--`). -/
def decStrong (regions : List GCRegion) (t : Nat) : List GCRegion :=
  regions.map (fun g => if g.rid == t then { g with strong_refs := g.strong_refs - 1 } else g)

/-- The unconditional part of `gc_free` on a live handle: decrement the
target's count and unlink/free the reference node.  `gc_unlink_ref` does
not decrement `GC.ref_count` (faithful to the source). -/
def gc_free_core (s : GCState) (ref : GCRef) : GCState :=
  { s with
      regions := decStrong s.regions ref.region,
      refs := s.refs.eraseP (fun f => f.refid == ref.refid) }

/-- `gc_free`: no-op on a null slot or null handle; otherwise decrement,
unlink, zero the caller's slot, then either run `gc_collect` and reseed
the countdown to `rand() % 10 + 1` (when `next_collect` is zero) or
decrement the countdown.  `r` is the oracle value of `rand()`.
A dangling handle is undefined behaviour in C; the model leaves the state
unchanged there and no theorem relies on that case. -/
def gc_free (s : GCState) (slot : Option Nat) (r : Nat) : GCState × Option Nat :=
  match slot with
  | none => (s, none)
  | some q =>
    match s.refs.find? (fun f => f.refid == q) with
    | none => (s, some q)
    | some ref =>
      let s1 := gc_free_core s ref
      if s1.next_collect == 0 then
        ({ gc_collect s1 with next_collect := r % 10 + 1 }, none)
      else
        ({ s1 with next_collect := s1.next_collect - 1 }, none)

/-- The effect of `memcpy((uint8_t*)r->ptr + offset, src, nbytes)` on the
payload bytes. -/
def writeBytes (data : List Nat) (offset : Nat) (src : List Nat) (n : Nat) : List Nat :=
  data.take offset ++ src.take n ++ data.drop (offset + n)

/-- `gc_write`: null checks on the handle, its region, the payload and
`src`; then the bounds check `offset + nbytes > r->size` — the sum is
`size_t` arithmetic, so it wraps modulo `2 ^ 64`; then the copy.  The
source buffer is `src` (a null pointer is `none`). -/
def gc_write (s : GCState) (slot : Option Nat) (offset : Nat)
    (src : Option (List Nat)) (nbytes : Nat) : GCState × Nat :=
  match slot with
  | none => (s, 0)
  | some q =>
    match s.refs.find? (fun f => f.refid == q) with
    | none => (s, 0)
    | some ref =>
      match s.regions.find? (fun g => g.rid == ref.region) with
      | none => (s, 0)
      | some reg =>
        match src with
        | none => (s, 0)
        | some srcBytes =>
          if (offset + nbytes) % sizetMod > reg.size then (s, 0)
          else
            ({ s with regions := s.regions.map (fun g =>
                if g.rid == ref.region then
                  { g with data := writeBytes g.data offset srcBytes nbytes }
                else g) }, nbytes)

/-- `gc_read`: the same checks (`dstOk` models `dst != NULL`), then the
copy out.  Returns the byte count and the bytes copied into `dst`. -/
def gc_read (s : GCState) (slot : Option Nat) (offset : Nat)
    (dstOk : Bool) (nbytes : Nat) : Nat × List Nat :=
  match slot with
  | none => (0, [])
  | some q =>
    match s.refs.find? (fun f => f.refid == q) with
    | none => (0, [])
    | some ref =>
      match s.regions.find? (fun g => g.rid == ref.region) with
      | none => (0, [])
      | some reg =>
        if !dstOk then (0, [])
        else if (offset + nbytes) % sizetMod > reg.size then (0, [])
        else (nbytes, (reg.data.drop offset).take nbytes)

/-- The operations a caller can perform on the registry, with their oracle
inputs (allocation failures, the `rand()` value) and the handle contents
the caller passes in. -/
inductive GCOp where
  | alloc (size : Nat) (failRegionNode failPayload failRefNode : Bool)
  | newRef (slot : Option Nat) (failNode : Bool)
  | free (slot : Option Nat) (r : Nat)
  | collect
deriving DecidableEq

/-- State transition of one operation (the returned handle is dropped). -/
def exec (s : GCState) (op : GCOp) : GCState :=
  match op with
  | .alloc size f1 f2 f3 => (gc_alloc s size f1 f2 f3).1
  | .newRef slot f => (gc_new_ref s slot f).1
  | .free slot r => (gc_free s slot r).1
  | .collect => gc_collect s

/-- Run a sequence of operations from a state. -/
def run (s : GCState) (ops : List GCOp) : GCState := ops.foldl exec s

/-- Number of live reference nodes whose target is the region at address
`t`. -/
def countRefsTo (refs : List GCRef) (t : Nat) : Nat :=
  (refs.filter (fun f => f.region == t)).length

/-- Well-formedness of the global state: region addresses are pairwise
distinct and below the freshness bound, reference targets are below the
bound, every region's `strong_refs` counts the live references into it,
and `bytes_in_use` is the sum of the linked regions' sizes. -/
def Inv (s : GCState) : Prop :=
  (s.regions.map GCRegion.rid).Nodup ∧
  (∀ g ∈ s.regions, g.rid < s.fresh) ∧
  (∀ f ∈ s.refs, f.region < s.fresh) ∧
  (∀ g ∈ s.regions, g.strong_refs = countRefsTo s.refs g.rid) ∧
  s.bytes_in_use = (s.regions.map GCRegion.size).sum

instance (s : GCState) : Decidable (Inv s) := by
  unfold Inv
  infer_instance

/-- A registry holding one 1-byte region with one live reference into it
(the state right after `gc_alloc(1)` from a fresh process). -/
def bugState : GCState := ⟨[⟨0, 1, 1, [0]⟩], [⟨1, 0⟩], 0, 1, 1, 0, 2⟩

/-- A registry holding one 4-byte region with one live reference into it
and a nonzero sweep countdown. -/
def liveState : GCState := ⟨[⟨0, 4, 1, [0, 0, 0, 0]⟩], [⟨1, 0⟩], 0, 1, 4, 3, 2⟩

/-- A registry holding one reclaimable (zero-count) 16-byte region — the
state after `gc_alloc(16)` failed on the reference-node allocation. -/
def reclaimState : GCState := ⟨[⟨0, 16, 0, List.replicate 16 0⟩], [], 0, 0, 16, 0, 1⟩

/-! ## Lemmas about the sweep -/

theorem collectGo_spec : ∀ (fuel : Nat) (pre l : List GCRegion) (bytes : Nat),
    (∀ g ∈ pre, g.strong_refs ≠ 0) →
    (pre.length + l.length) ^ 2 + l.length < fuel →
    collectGo fuel pre l bytes =
      ((pre ++ l).filter (fun g => g.strong_refs != 0),
       bytes - (((pre ++ l).filter (fun g => g.strong_refs == 0)).map GCRegion.size).sum) := by
  intro fuel
  induction fuel with
  | zero =>
    intro pre l bytes _ hfuel
    omega
  | succ fuel ih =>
    intro pre l bytes hpre hfuel
    cases l with
    | nil =>
      have h1 : pre.filter (fun g => g.strong_refs != 0) = pre := by
        rw [List.filter_eq_self]
        intro a ha
        simpa using hpre a ha
      have h2 : pre.filter (fun g => g.strong_refs == 0) = [] := by
        rw [List.filter_eq_nil_iff]
        intro a ha
        simpa using hpre a ha
      simp [collectGo, h1, h2]
    | cons c rest =>
      by_cases hc : (c.strong_refs == 0) = true
      · have hc' : (c.strong_refs != 0) = false := by simpa using hc
        have hm : (([] : List GCRegion).length + (pre ++ rest).length) ^ 2
            + (pre ++ rest).length < fuel := by
          simp only [List.length_nil, List.length_append, List.length_cons,
            Nat.zero_add] at hfuel ⊢
          have e : pre.length + (rest.length + 1) = pre.length + rest.length + 1 := by omega
          rw [e] at hfuel
          have hsq : (pre.length + rest.length + 1) ^ 2
              = (pre.length + rest.length) ^ 2 + 2 * (pre.length + rest.length) + 1 := by
            ring
          rw [hsq] at hfuel
          omega
        rw [collectGo]
        simp only [hc, if_true, if_pos]
        rw [ih [] (pre ++ rest) (bytes - c.size) (by simp) hm]
        simp only [Prod.mk.injEq]
        refine ⟨?_, ?_⟩
        · simp [List.filter_append, List.filter_cons, hc, hc']
        · simp only [List.nil_append, List.filter_append, List.filter_cons, hc, if_true,
            List.map_append, List.sum_append, List.map_cons, List.sum_cons]
          rw [Nat.sub_sub]
          omega
      · have hc0 : c.strong_refs ≠ 0 := by simpa using hc
        have hm : ((pre ++ [c]).length + rest.length) ^ 2 + rest.length < fuel := by
          simp only [List.length_append, List.length_cons, List.length_nil,
            Nat.zero_add] at hfuel ⊢
          have e : pre.length + 1 + rest.length = pre.length + (rest.length + 1) := by omega
          rw [e]
          omega
        rw [collectGo]
        simp only [hc, if_neg, Bool.false_eq_true, if_false]
        rw [ih (pre ++ [c]) rest bytes ?_ hm]
        · simp
        · intro g hg
          rcases List.mem_append.1 hg with h | h
          · exact hpre g h
          · simpa using (List.mem_singleton.1 h) ▸ hc0

theorem collect_fuel_enough (n : Nat) : (0 + n) ^ 2 + n < (n + 1) * (n + 1) := by
  have hsq : (0 + n) ^ 2 = n * n := by ring
  have he : (n + 1) * (n + 1) = n * n + 2 * n + 1 := by ring
  omega

theorem collect_regions (s : GCState) :
    (gc_collect s).regions = s.regions.filter (fun g => g.strong_refs != 0) := by
  simp [gc_collect, collectGo_spec _ [] s.regions s.bytes_in_use (by simp)
    (by simpa using collect_fuel_enough s.regions.length)]

theorem collect_bytes (s : GCState) :
    (gc_collect s).bytes_in_use =
      s.bytes_in_use - ((s.regions.filter (fun g => g.strong_refs == 0)).map GCRegion.size).sum := by
  simp [gc_collect, collectGo_spec _ [] s.regions s.bytes_in_use (by simp)
    (by simpa using collect_fuel_enough s.regions.length)]

theorem gc_free_eq_zero (s : GCState) (q r : Nat) (ref : GCRef)
    (hfind : s.refs.find? (fun f => f.refid == q) = some ref)
    (hc : ((gc_free_core s ref).next_collect == 0) = true) :
    gc_free s (some q) r
      = ({ gc_collect (gc_free_core s ref) with next_collect := r % 10 + 1 }, none) := by
  simp [gc_free, hfind, hc]

theorem gc_free_eq_pos (s : GCState) (q r : Nat) (ref : GCRef)
    (hfind : s.refs.find? (fun f => f.refid == q) = some ref)
    (hc : ¬((gc_free_core s ref).next_collect == 0) = true) :
    gc_free s (some q) r
      = ({ gc_free_core s ref with
            next_collect := (gc_free_core s ref).next_collect - 1 }, none) := by
  simp [gc_free, hfind, hc]

theorem collect_refs (s : GCState) : (gc_collect s).refs = s.refs := rfl

theorem collect_ref_count (s : GCState) : (gc_collect s).ref_count = s.ref_count := rfl

theorem collect_region_count (s : GCState) : (gc_collect s).region_count = s.region_count := rfl

theorem collect_fresh (s : GCState) : (gc_collect s).fresh = s.fresh := rfl

theorem sum_filter_split (l : List GCRegion) :
    ((l.filter (fun g => g.strong_refs != 0)).map GCRegion.size).sum
      + ((l.filter (fun g => g.strong_refs == 0)).map GCRegion.size).sum
      = (l.map GCRegion.size).sum := by
  induction l with
  | nil => simp
  | cons a l ih =>
    by_cases h : a.strong_refs = 0 <;>
      simp [List.filter_cons, h] <;> omega

/-! ## Lemmas about reference counting -/

theorem countRefsTo_cons (f : GCRef) (l : List GCRef) (t : Nat) :
    countRefsTo (f :: l) t = (if f.region = t then 1 else 0) + countRefsTo l t := by
  by_cases h : f.region = t
  · simp [countRefsTo, List.filter_cons, h]
    omega
  · simp [countRefsTo, List.filter_cons, h]

theorem countRefsTo_eq_zero (l : List GCRef) (t : Nat) (h : ∀ f ∈ l, f.region ≠ t) :
    countRefsTo l t = 0 := by
  simp only [countRefsTo, List.length_eq_zero, List.filter_eq_nil_iff]
  intro f hf
  simpa using h f hf

theorem count_eraseP (l : List GCRef) (q t : Nat) (ref : GCRef)
    (h : l.find? (fun f => f.refid == q) = some ref) :
    countRefsTo (l.eraseP (fun f => f.refid == q)) t + (if ref.region = t then 1 else 0)
      = countRefsTo l t := by
  induction l with
  | nil => simp at h
  | cons a l ih =>
    rw [List.find?_cons] at h
    by_cases ha : (a.refid == q) = true
    · simp only [ha] at h
      obtain rfl : a = ref := by injection h
      rw [List.eraseP_cons_of_pos (p := fun (f : GCRef) => f.refid == q) ha, countRefsTo_cons]
      omega
    · have ha' : (a.refid == q) = false := by simpa using ha
      simp only [ha'] at h
      rw [List.eraseP_cons_of_neg (p := fun (f : GCRef) => f.refid == q) ha, countRefsTo_cons,
        countRefsTo_cons, ← ih h]
      omega

/-! ## Lemmas about conditional map updates (pointer writes through a
region address) -/

theorem find?_rid_map_update (l : List GCRegion) (t : Nat) (u : GCRegion → GCRegion)
    (hu : ∀ g, (u g).rid = g.rid) :
    (l.map (fun g => if g.rid == t then u g else g)).find? (fun g => g.rid == t)
      = (l.find? (fun g => g.rid == t)).map u := by
  induction l with
  | nil => simp
  | cons a l ih =>
    by_cases ha : (a.rid == t) = true
    · have hua : ((u a).rid == t) = true := by simpa [hu] using ha
      have e1 := List.find?_cons_of_pos (p := fun g => g.rid == t)
        (l.map (fun g => if g.rid == t then u g else g)) hua
      have e2 := List.find?_cons_of_pos (p := fun g => g.rid == t) l ha
      simp only [List.map_cons, if_pos ha, e1, e2]
      rfl
    · have e1 := List.find?_cons_of_neg (p := fun g => g.rid == t)
        (l.map (fun g => if g.rid == t then u g else g)) ha
      have e2 := List.find?_cons_of_neg (p := fun g => g.rid == t) l ha
      simp only [List.map_cons, if_neg ha, e1, e2, ih]

theorem map_update_map_rid (l : List GCRegion) (t : Nat) (u : GCRegion → GCRegion)
    (hu : ∀ g, (u g).rid = g.rid) :
    (l.map (fun g => if g.rid == t then u g else g)).map GCRegion.rid = l.map GCRegion.rid := by
  rw [List.map_map]
  apply List.map_congr_left
  intro a _
  by_cases h : (a.rid == t) = true <;> simp [Function.comp, h, hu]

theorem map_update_map_size (l : List GCRegion) (t : Nat) (u : GCRegion → GCRegion)
    (hu : ∀ g, (u g).size = g.size) :
    (l.map (fun g => if g.rid == t then u g else g)).map GCRegion.size = l.map GCRegion.size := by
  rw [List.map_map]
  apply List.map_congr_left
  intro a _
  by_cases h : (a.rid == t) = true <;> simp [Function.comp, h, hu]

theorem map_update_id (l : List GCRegion) (t : Nat) (u : GCRegion → GCRegion)
    (h : ∀ g ∈ l, g.rid ≠ t) :
    l.map (fun g => if g.rid == t then u g else g) = l := by
  have := List.map_congr_left (l := l)
    (f := fun g => if g.rid == t then u g else g) (g := id)
    (by intro a ha; simp [h a ha])
  simpa using this

theorem mem_update_elim (l : List GCRegion) (t : Nat) (u : GCRegion → GCRegion)
    (g' : GCRegion) (h : g' ∈ l.map (fun g => if g.rid == t then u g else g)) :
    (∃ g, g ∈ l ∧ g.rid = t ∧ g' = u g) ∨ (g' ∈ l ∧ g'.rid ≠ t) := by
  rcases List.mem_map.1 h with ⟨g, hg, hEq⟩
  by_cases hr : (g.rid == t) = true
  · exact Or.inl ⟨g, hg, by simpa using hr, by rw [← hEq, if_pos hr]⟩
  · refine Or.inr ⟨?_, ?_⟩
    · rw [← hEq, if_neg hr]; exact hg
    · rw [← hEq, if_neg hr]; simpa using hr

theorem decStrong_map_rid (l : List GCRegion) (t : Nat) :
    (decStrong l t).map GCRegion.rid = l.map GCRegion.rid :=
  map_update_map_rid l t _ (fun _ => rfl)

theorem decStrong_map_size (l : List GCRegion) (t : Nat) :
    (decStrong l t).map GCRegion.size = l.map GCRegion.size :=
  map_update_map_size l t _ (fun _ => rfl)

theorem bumpStrong_map_rid (l : List GCRegion) (t : Nat) :
    (bumpStrong l t).map GCRegion.rid = l.map GCRegion.rid :=
  map_update_map_rid l t _ (fun _ => rfl)

theorem bumpStrong_map_size (l : List GCRegion) (t : Nat) :
    (bumpStrong l t).map GCRegion.size = l.map GCRegion.size :=
  map_update_map_size l t _ (fun _ => rfl)

/-! ## Preservation of the invariant by every operation -/

theorem inv_initState : Inv initState := by decide

theorem inv_set_next (s : GCState) (v : Nat) :
    Inv { s with next_collect := v } ↔ Inv s := Iff.rfl

theorem inv_collect (s : GCState) (h : Inv s) : Inv (gc_collect s) := by
  obtain ⟨h1, h2, h3, h4, h5⟩ := h
  refine ⟨?_, ?_, ?_, ?_, ?_⟩
  · rw [collect_regions]
    exact List.Nodup.sublist ((List.filter_sublist _).map _) h1
  · rw [collect_regions, collect_fresh]
    exact fun g hg => h2 g (List.mem_of_mem_filter hg)
  · rw [collect_refs, collect_fresh]
    exact h3
  · rw [collect_regions, collect_refs]
    exact fun g hg => h4 g (List.mem_of_mem_filter hg)
  · rw [collect_regions, collect_bytes, h5, ← sum_filter_split s.regions]
    omega

theorem inv_region_added (s : GCState) (size : Nat) (h : Inv s) :
    Inv { s with
            bytes_in_use := s.bytes_in_use + size,
            regions := ⟨s.fresh, size, 0, List.replicate size 0⟩ :: s.regions,
            fresh := s.fresh + 1 } := by
  obtain ⟨h1, h2, h3, h4, h5⟩ := h
  refine ⟨?_, ?_, ?_, ?_, ?_⟩
  · simp only [List.map_cons, List.nodup_cons]
    refine ⟨?_, h1⟩
    intro hmem
    rcases List.mem_map.1 hmem with ⟨g, hg, hEq⟩
    exact absurd hEq (Nat.ne_of_lt (h2 g hg))
  · intro g hg
    rcases List.mem_cons.1 hg with rfl | hg'
    · exact Nat.lt_succ_self _
    · exact Nat.lt_succ_of_lt (h2 g hg')
  · exact fun f hf => Nat.lt_succ_of_lt (h3 f hf)
  · intro g hg
    rcases List.mem_cons.1 hg with rfl | hg'
    · exact (countRefsTo_eq_zero _ _ (fun f hf => Nat.ne_of_lt (h3 f hf))).symm
    · exact h4 g hg'
  · simp only [List.map_cons, List.sum_cons]
    omega

theorem inv_make_ref_state (s : GCState) (t : Nat) (h : Inv s) (ht : t < s.fresh) :
    Inv { s with
            refs := ⟨s.fresh, t⟩ :: s.refs,
            ref_count := s.ref_count + 1,
            regions := bumpStrong s.regions t,
            fresh := s.fresh + 1 } := by
  obtain ⟨h1, h2, h3, h4, h5⟩ := h
  refine ⟨?_, ?_, ?_, ?_, ?_⟩
  · simpa [bumpStrong_map_rid] using h1
  · intro g hg
    rcases mem_update_elim _ _ _ _ hg with ⟨g0, hg0, _, rfl⟩ | ⟨hg', _⟩
    · exact Nat.lt_succ_of_lt (h2 g0 hg0)
    · exact Nat.lt_succ_of_lt (h2 _ hg')
  · intro f hf
    rcases List.mem_cons.1 hf with rfl | hf'
    · exact Nat.lt_succ_of_lt ht
    · exact Nat.lt_succ_of_lt (h3 f hf')
  · intro g hg
    rcases mem_update_elim _ _ _ _ hg with ⟨g0, hg0, hrid, rfl⟩ | ⟨hg', hne⟩
    · show g0.strong_refs + 1 = countRefsTo _ g0.rid
      rw [countRefsTo_cons, h4 g0 hg0, hrid, if_pos rfl]
      omega
    · rw [countRefsTo_cons, if_neg (fun hEq => hne hEq.symm), h4 _ hg']
      omega
  · simpa [bumpStrong_map_size] using h5

theorem inv_alloc (s : GCState) (size : Nat) (f1 f2 f3 : Bool) (h : Inv s) :
    Inv (gc_alloc s size f1 f2 f3).1 := by
  cases f1 with
  | true => simpa [gc_alloc, gc_make_region] using h
  | false =>
    cases f2 with
    | true => simpa [gc_alloc, gc_make_region] using h
    | false =>
      cases f3 with
      | true =>
        simp only [gc_alloc, gc_make_region, gc_make_ref, Bool.false_eq_true, if_false, if_true]
        exact inv_region_added s size h
      | false =>
        simp only [gc_alloc, gc_make_region, gc_make_ref, Bool.false_eq_true, if_false, if_true]
        exact inv_make_ref_state _ s.fresh (inv_region_added s size h) (Nat.lt_succ_self _)

theorem inv_new_ref (s : GCState) (slot : Option Nat) (f : Bool) (h : Inv s) :
    Inv (gc_new_ref s slot f).1 := by
  cases slot with
  | none => simpa [gc_new_ref] using h
  | some q =>
    cases hfind : s.refs.find? (fun f => f.refid == q) with
    | none => simpa [gc_new_ref, hfind] using h
    | some ref =>
      cases f with
      | true => simpa [gc_new_ref, hfind, gc_make_ref] using h
      | false =>
        simp only [gc_new_ref, hfind, gc_make_ref, Bool.false_eq_true, if_false]
        exact inv_make_ref_state s ref.region h
          (h.2.2.1 ref (List.mem_of_find?_eq_some hfind))

theorem inv_free_core (s : GCState) (q : Nat) (ref : GCRef)
    (hfind : s.refs.find? (fun f => f.refid == q) = some ref) (h : Inv s) :
    Inv (gc_free_core s ref) := by
  obtain ⟨h1, h2, h3, h4, h5⟩ := h
  refine ⟨?_, ?_, ?_, ?_, ?_⟩
  · simpa [gc_free_core, decStrong_map_rid] using h1
  · intro g hg
    rcases mem_update_elim _ _ _ _ hg with ⟨g0, hg0, _, rfl⟩ | ⟨hg', _⟩
    · exact h2 g0 hg0
    · exact h2 _ hg'
  · intro f hf
    exact h3 f ((List.eraseP_sublist _).subset hf)
  · intro g hg
    have hq : ref.refid = q := by simpa using List.find?_some hfind
    have herefs : (gc_free_core s ref).refs = s.refs.eraseP (fun f => f.refid == q) := by
      simp [gc_free_core, hq]
    rcases mem_update_elim _ _ _ _ hg with ⟨g0, hg0, hrid, rfl⟩ | ⟨hg', hne⟩
    · have hcount0 := count_eraseP s.refs q g0.rid ref hfind
      rw [if_pos hrid.symm] at hcount0
      have h4' := h4 g0 hg0
      show g0.strong_refs - 1 = countRefsTo (gc_free_core s ref).refs g0.rid
      rw [herefs]
      omega
    · have hcount := count_eraseP s.refs q g.rid ref hfind
      rw [if_neg (fun hEq => hne hEq.symm)] at hcount
      have h4' := h4 _ hg'
      show g.strong_refs = countRefsTo (gc_free_core s ref).refs g.rid
      rw [herefs]
      omega
  · simpa [gc_free_core, decStrong_map_size] using h5

theorem inv_free (s : GCState) (slot : Option Nat) (r : Nat) (h : Inv s) :
    Inv (gc_free s slot r).1 := by
  cases slot with
  | none => simpa [gc_free] using h
  | some q =>
    cases hfind : s.refs.find? (fun f => f.refid == q) with
    | none => simpa [gc_free, hfind] using h
    | some ref =>
      have hcore := inv_free_core s q ref hfind h
      by_cases hc : ((gc_free_core s ref).next_collect == 0) = true
      · simpa [gc_free, hfind, hc, inv_set_next] using inv_collect _ hcore
      · simpa [gc_free, hfind, hc, inv_set_next] using hcore

theorem inv_exec (s : GCState) (op : GCOp) (h : Inv s) : Inv (exec s op) := by
  cases op with
  | alloc size f1 f2 f3 => exact inv_alloc s size f1 f2 f3 h
  | newRef slot f => exact inv_new_ref s slot f h
  | free slot r => exact inv_free s slot r h
  | collect => exact inv_collect s h

theorem inv_run (s : GCState) (ops : List GCOp) (h : Inv s) : Inv (run s ops) := by
  induction ops generalizing s with
  | nil => exact h
  | cons op ops ih => exact ih _ (inv_exec s op h)

/-! ## Lemmas about the payload copy operations -/

theorem writeBytes_zero (d : List Nat) (o : Nat) (src : List Nat) :
    writeBytes d o src 0 = d := by
  simp [writeBytes]

theorem write_zero_id (l : List GCRegion) (t o : Nat) (src : List Nat) :
    l.map (fun g => if g.rid == t then { g with data := writeBytes g.data o src 0 } else g)
      = l := by
  have := List.map_congr_left (l := l)
    (f := fun g => if g.rid == t then { g with data := writeBytes g.data o src 0 } else g)
    (g := id)
    (by
      intro a _
      by_cases hM : (a.rid == t) = true <;> simp [hM, writeBytes_zero])
  simpa using this

theorem writeBytes_read (d B : List Nat) (o len : Nat) (hlen : B.length = len)
    (hole : o + len ≤ d.length) :
    ((writeBytes d o B len).drop o).take len = B := by
  subst hlen
  have htake : (d.take o).length = o := by
    simp only [List.length_take]
    omega
  have hBtake : B.take B.length = B := List.take_length B
  rw [writeBytes, hBtake, List.append_assoc, List.drop_left' htake, List.take_left]

/-! ## The shape of a release followed by a sweep -/

theorem filter_z_of_filter_nz (l : List GCRegion) :
    (l.filter (fun g => g.strong_refs != 0)).filter (fun g => g.strong_refs == 0) = [] := by
  rw [List.filter_filter]
  apply List.filter_eq_nil_iff.2
  intro a _
  cases h : (a.strong_refs == 0) <;> simp [h, bne]

theorem filter_nz_idem (l : List GCRegion) :
    (l.filter (fun g => g.strong_refs != 0)).filter (fun g => g.strong_refs != 0)
      = l.filter (fun g => g.strong_refs != 0) := by
  rw [List.filter_filter]
  apply List.filter_congr
  intro a _
  cases h : (a.strong_refs != 0) <;> simp [h]

theorem free_then_collect_shape (s : GCState) (q r : Nat) (ref : GCRef)
    (hfind : s.refs.find? (fun f => f.refid == q) = some ref) :
    (gc_collect (gc_free s (some q) r).1).regions
      = (decStrong s.regions ref.region).filter (fun g => g.strong_refs != 0) ∧
    (gc_collect (gc_free s (some q) r).1).bytes_in_use
      = s.bytes_in_use
        - (((decStrong s.regions ref.region).filter
              (fun g => g.strong_refs == 0)).map GCRegion.size).sum := by
  have hcore_regions : (gc_free_core s ref).regions = decStrong s.regions ref.region := rfl
  have hcore_bytes : (gc_free_core s ref).bytes_in_use = s.bytes_in_use := rfl
  by_cases hc : ((gc_free_core s ref).next_collect == 0) = true
  · have hfree : (gc_free s (some q) r).1
        = { gc_collect (gc_free_core s ref) with next_collect := r % 10 + 1 } := by
      simp [gc_free, hfind, hc]
    rw [hfree]
    constructor
    · show (gc_collect { gc_collect (gc_free_core s ref) with next_collect := r % 10 + 1 }).regions = _
      rw [collect_regions]
      show ((gc_collect (gc_free_core s ref)).regions).filter _ = _
      rw [collect_regions, hcore_regions, filter_nz_idem]
    · show (gc_collect { gc_collect (gc_free_core s ref) with next_collect := r % 10 + 1 }).bytes_in_use = _
      rw [collect_bytes]
      show (gc_collect (gc_free_core s ref)).bytes_in_use
          - ((((gc_collect (gc_free_core s ref)).regions).filter _).map GCRegion.size).sum = _
      rw [collect_bytes, collect_regions, hcore_regions, hcore_bytes, filter_z_of_filter_nz]
      simp
  · have hfree : (gc_free s (some q) r).1
        = { gc_free_core s ref with next_collect := (gc_free_core s ref).next_collect - 1 } := by
      simp [gc_free, hfind, hc]
    rw [hfree]
    constructor
    · show (gc_collect { gc_free_core s ref with next_collect := _ }).regions = _
      rw [collect_regions]
      exact congrArg _ hcore_regions
    · show (gc_collect { gc_free_core s ref with next_collect := _ }).bytes_in_use = _
      rw [collect_bytes]
      show (gc_free_core s ref).bytes_in_use - _ = _
      rw [hcore_bytes, hcore_regions]

theorem sum_z_dec (l : List GCRegion) (t : Nat) (reg : GCRegion)
    (hnodup : (l.map GCRegion.rid).Nodup)
    (huniq : ∀ g ∈ l, g.rid = t → g = reg)
    (hmem : reg ∈ l) (hrid : reg.rid = t) (hstrong : reg.strong_refs = 1)
    (hothers : ∀ g ∈ l, g.rid ≠ t → g.strong_refs ≠ 0) :
    (((decStrong l t).filter (fun g => g.strong_refs == 0)).map GCRegion.size).sum
      = reg.size := by
  induction l with
  | nil => cases hmem
  | cons a l ih =>
    rw [List.map_cons, List.nodup_cons] at hnodup
    by_cases hat : a.rid = t
    · obtain rfl : a = reg := huniq a (List.mem_cons_self a l) hat
      have hnot : ∀ g ∈ l, g.rid ≠ t := by
        intro g hg hEq
        exact hnodup.1 (List.mem_map.2 ⟨g, hg, by rw [hEq, hat]⟩)
      have hdec : decStrong l t = l := map_update_id l t _ hnot
      have hz : l.filter (fun g => g.strong_refs == 0) = [] := by
        apply List.filter_eq_nil_iff.2
        intro g hg
        simpa using hothers g (List.mem_cons_of_mem a hg) (hnot g hg)
      have e1 : decStrong (a :: l) t
          = ({ a with strong_refs := a.strong_refs - 1 } : GCRegion) :: decStrong l t := by
        simp [decStrong, hat]
      have e2 : (({ a with strong_refs := a.strong_refs - 1 } : GCRegion).strong_refs == 0)
          = true := by simp [hstrong]
      rw [e1, hdec, List.filter_cons, if_pos e2, hz]
      simp
    · have ha0 : a.strong_refs ≠ 0 := hothers a (List.mem_cons_self a l) hat
      have hmem' : reg ∈ l := by
        rcases List.mem_cons.1 hmem with rfl | h
        · exact absurd hrid hat
        · exact h
      have e1 : decStrong (a :: l) t = a :: decStrong l t := by
        simp [decStrong, hat]
      rw [e1, List.filter_cons, if_neg (by simpa using ha0)]
      exact ih hnodup.2 (fun g hg => huniq g (List.mem_cons_of_mem a hg)) hmem'
        (fun g hg => hothers g (List.mem_cons_of_mem a hg))

/-! ## The claims -/

/-- C2: after any sequence of `gc_alloc` / `gc_new_ref` / `gc_free`
(and `gc_collect`) operations from the initial registry, every region's
`strong_refs` equals the number of currently-unreleased references whose
target is that region. -/
theorem strong_refs_counts_live_refs (ops : List GCOp) (g : GCRegion)
    (hg : g ∈ (run initState ops).regions) :
    g.strong_refs = countRefsTo (run initState ops).refs g.rid :=
  (inv_run initState ops inv_initState).2.2.2.1 g hg

theorem strong_refs_counts_live_refs_witness :
    (⟨0, 16, 1, List.replicate 16 0⟩ : GCRegion)
        ∈ (run initState [.alloc 16 false false false]).regions ∧
    (⟨0, 16, 1, List.replicate 16 0⟩ : GCRegion).strong_refs
      = countRefsTo (run initState [.alloc 16 false false false]).refs
          (⟨0, 16, 1, List.replicate 16 0⟩ : GCRegion).rid :=
  ⟨by decide, strong_refs_counts_live_refs [.alloc 16 false false false] _ (by decide)⟩

/-- C3 counterexample: when `gc_alloc(16)`'s region and payload
allocations succeed but the reference-node allocation fails, the call
returns the empty result yet the registry is *not* as it was before: the
region node remains linked and `bytes_in_use` has grown by 16. -/
theorem gc_alloc_ref_failure_partial_state :
    (gc_alloc initState 16 false false true).2 = none ∧
    (gc_alloc initState 16 false false true).1 ≠ initState ∧
    (gc_alloc initState 16 false false true).1.bytes_in_use = 16 ∧
    (gc_alloc initState 16 false false true).1.regions ≠ [] := by
  decide

/-- C3 amended: when `gc_alloc` fails because the region-node or the
payload allocation cannot be satisfied, the registry is left exactly as it
was; when it fails because the reference-node allocation cannot be
satisfied, the freshly created region remains linked with
`strong_refs = 0` (and `bytes_in_use` increased by its size), to be
reclaimed by a later sweep. -/
theorem gc_alloc_failure_amended (s : GCState) (size : Nat) (fp fr : Bool) :
    gc_alloc s size true fp fr = (s, none) ∧
    gc_alloc s size false true fr = (s, none) ∧
    (gc_alloc s size false false true).2 = none ∧
    (gc_alloc s size false false true).1 =
      { s with
          bytes_in_use := s.bytes_in_use + size,
          regions := ⟨s.fresh, size, 0, List.replicate size 0⟩ :: s.regions,
          fresh := s.fresh + 1 } := by
  refine ⟨?_, ?_, ?_, ?_⟩ <;> simp [gc_alloc, gc_make_region, gc_make_ref]

/-- C5 counterexample: running `gc_alloc(16)` and then `gc_free` removes a
reference node (list length 1 → 0) and — through the automatic sweep — a
region node (1 → 0), yet the stored `ref_count` and `region_count` totals
are both unchanged by the removals. -/
theorem unlink_totals_counterexample :
    (run initState [.alloc 16 false false false]).refs.length = 1 ∧
    (run initState [.alloc 16 false false false, .free (some 1) 5]).refs.length = 0 ∧
    (run initState [.alloc 16 false false false, .free (some 1) 5]).ref_count
      = (run initState [.alloc 16 false false false]).ref_count ∧
    (run initState [.alloc 16 false false false]).regions.length = 1 ∧
    (run initState [.alloc 16 false false false, .free (some 1) 5]).regions.length = 0 ∧
    (run initState [.alloc 16 false false false, .free (some 1) 5]).region_count
      = (run initState [.alloc 16 false false false]).region_count := by
  decide

/-- C5 amended: every removal of a region node recomputes the head pointer
and decrements `bytes_in_use` by the removed region's size, but the stored
region and reference counts are not updated by removals: `region_count`
is never modified, and `ref_count` only ever increments (on reference
creation), so sweeps and releases leave both stored counts unchanged. -/
theorem unlink_updates_amended (s : GCState) (slot : Option Nat) (r : Nat)
    (hb : s.bytes_in_use = (s.regions.map GCRegion.size).sum) :
    (gc_collect s).bytes_in_use
        + ((s.regions.filter (fun g => g.strong_refs == 0)).map GCRegion.size).sum
      = s.bytes_in_use ∧
    (gc_collect s).region_count = s.region_count ∧
    (gc_collect s).ref_count = s.ref_count ∧
    (gc_free s slot r).1.region_count = s.region_count ∧
    (gc_free s slot r).1.ref_count = s.ref_count := by
  have hcounts : (gc_free s slot r).1.region_count = s.region_count ∧
      (gc_free s slot r).1.ref_count = s.ref_count := by
    cases slot with
    | none => exact ⟨rfl, rfl⟩
    | some q =>
      cases hfind : s.refs.find? (fun f => f.refid == q) with
      | none => simp [gc_free, hfind]
      | some ref =>
        by_cases hc : ((gc_free_core s ref).next_collect == 0) = true
        · rw [gc_free_eq_zero s q r ref hfind hc]
          exact ⟨rfl, rfl⟩
        · rw [gc_free_eq_pos s q r ref hfind hc]
          exact ⟨rfl, rfl⟩
  refine ⟨?_, rfl, rfl, hcounts.1, hcounts.2⟩
  have hsplit := sum_filter_split s.regions
  rw [collect_bytes, hb]
  omega

theorem unlink_updates_amended_witness :
    reclaimState.bytes_in_use = (reclaimState.regions.map GCRegion.size).sum ∧
    ((gc_collect reclaimState).bytes_in_use
        + ((reclaimState.regions.filter
              (fun g => g.strong_refs == 0)).map GCRegion.size).sum
      = reclaimState.bytes_in_use ∧
    (gc_collect reclaimState).region_count = reclaimState.region_count ∧
    (gc_collect reclaimState).ref_count = reclaimState.ref_count ∧
    (gc_free reclaimState none 0).1.region_count = reclaimState.region_count ∧
    (gc_free reclaimState none 0).1.ref_count = reclaimState.ref_count) :=
  ⟨by decide, unlink_updates_amended reclaimState none 0 (by decide)⟩

/-- C6: `gc_free` on a slot holding the sentinel (null) handle always
succeeds as a strict no-op (the whole registry state is returned
unchanged), and `gc_free` on a valid handle overwrites the caller's slot
with the sentinel, so repeating `gc_free` on the same slot changes
nothing. -/
theorem gc_free_sentinel_noop (s : GCState) (q r r' : Nat) (ref : GCRef)
    (hfind : s.refs.find? (fun f => f.refid == q) = some ref) :
    gc_free s none r = (s, none) ∧
    (gc_free s (some q) r).2 = none ∧
    gc_free (gc_free s (some q) r).1 (gc_free s (some q) r).2 r'
      = ((gc_free s (some q) r).1, none) := by
  have h2 : (gc_free s (some q) r).2 = none := by
    by_cases hc : ((gc_free_core s ref).next_collect == 0) = true <;>
      simp [gc_free, hfind, hc]
  refine ⟨rfl, h2, ?_⟩
  rw [h2]
  rfl

theorem gc_free_sentinel_noop_witness :
    liveState.refs.find? (fun f => f.refid == 1) = some ⟨1, 0⟩ ∧
    (gc_free liveState none 7 = (liveState, none) ∧
    (gc_free liveState (some 1) 7).2 = none ∧
    gc_free (gc_free liveState (some 1) 7).1 (gc_free liveState (some 1) 7).2 2
      = ((gc_free liveState (some 1) 7).1, none)) :=
  ⟨by decide, gc_free_sentinel_noop liveState 1 7 2 ⟨1, 0⟩ (by decide)⟩

/-- C9: the auto-sweep countdown starts at zero, so from the initial
registry the very first `gc_free` of a valid handle (here the handle
returned by the first `gc_alloc`, for any size and any `rand()` value)
runs a full `gc_collect` before returning: the now-unreferenced region is
reclaimed immediately and the countdown is reseeded to `r % 10 + 1`. -/
theorem first_free_runs_collect :
    initState.next_collect = 0 ∧
    ∀ (size r : Nat),
      (run initState [.alloc size false false false, .free (some 1) r]).regions = [] ∧
      (run initState [.alloc size false false false, .free (some 1) r]).next_collect
        = r % 10 + 1 :=
  ⟨rfl, fun _ _ => ⟨rfl, rfl⟩⟩

/-- C1 (code bug): the bounds check of `gc_write` / `gc_read` computes
`offset + nbytes` in `size_t` arithmetic, which wraps modulo `2 ^ 64`.
On a 1-byte region with `offset = 2 ^ 64 - 1` and `nbytes = 2` the wrapped
sum is `1 ≤ size`, so the operation "succeeds" and returns 2 even though
the mathematical sum exceeds the region size — the claim requires it to
copy nothing and return 0. -/
theorem gc_write_bounds_overflow_bug :
    (sizetMod - 1) + 2 > 1 ∧
    (gc_write bugState (some 1) (sizetMod - 1) (some [7, 7]) 2).2 = 2 ∧
    (gc_write bugState (some 1) (sizetMod - 1) (some [7, 7]) 2).2 ≠ 0 ∧
    (gc_read bugState (some 1) (sizetMod - 1) true 2).1 = 2 := by
  refine ⟨by decide, by decide, by decide, by decide⟩

/-- C10: on a valid live handle with `offset ≤ size`, `gc_write` and
`gc_read` with `n = 0` pass the bounds check and succeed (the state is
unchanged by the empty copy) but return 0 — exactly the value returned on
any constraint violation (e.g. a null handle), so the two outcomes are
indistinguishable by the return value. -/
theorem zero_byte_ops_return_sentinel (s : GCState) (q offset : Nat) (src : List Nat)
    (ref : GCRef) (reg : GCRegion)
    (href : s.refs.find? (fun f => f.refid == q) = some ref)
    (hreg : s.regions.find? (fun g => g.rid == ref.region) = some reg)
    (hoff : offset ≤ reg.size) (hS : reg.size < sizetMod) :
    gc_write s (some q) offset (some src) 0 = (s, 0) ∧
    gc_read s (some q) offset true 0 = (0, []) ∧
    gc_write s none offset (some src) 0 = (s, 0) ∧
    gc_read s none offset true 0 = (0, []) := by
  have hmod : (offset + 0) % sizetMod = offset := by
    rw [Nat.add_zero]
    exact Nat.mod_eq_of_lt (lt_of_le_of_lt hoff hS)
  have hnb : ¬((offset + 0) % sizetMod > reg.size) := by
    rw [hmod]
    omega
  refine ⟨?_, ?_, rfl, rfl⟩
  · simp only [gc_write, href, hreg, if_neg hnb]
    rw [write_zero_id]
  · simp only [gc_read, href, hreg]
    simp [hnb]

theorem zero_byte_ops_return_sentinel_witness :
    (liveState.refs.find? (fun f => f.refid == 1) = some ⟨1, 0⟩ ∧
     liveState.regions.find? (fun g => g.rid == 0) = some ⟨0, 4, 1, [0, 0, 0, 0]⟩ ∧
     4 ≤ (⟨0, 4, 1, [0, 0, 0, 0]⟩ : GCRegion).size ∧
     (⟨0, 4, 1, [0, 0, 0, 0]⟩ : GCRegion).size < sizetMod) ∧
    (gc_write liveState (some 1) 4 (some [5]) 0 = (liveState, 0) ∧
     gc_read liveState (some 1) 4 true 0 = (0, []) ∧
     gc_write liveState none 4 (some [5]) 0 = (liveState, 0) ∧
     gc_read liveState none 4 true 0 = (0, [])) :=
  ⟨⟨by decide, by decide, by decide, by decide⟩,
   zero_byte_ops_return_sentinel liveState 1 4 [5] ⟨1, 0⟩ ⟨0, 4, 1, [0, 0, 0, 0]⟩
     (by decide) (by decide) (by decide) (by decide)⟩

/-- C7: on a region of size `S` with a live handle, writing bytes `B` of
length `len` at offset `O` with `O + len ≤ S` succeeds, and reading `len`
bytes back at `O` returns exactly `B`. -/
theorem gc_write_then_read_roundtrip (s : GCState) (q offset len : Nat) (B : List Nat)
    (ref : GCRef) (reg : GCRegion)
    (href : s.refs.find? (fun f => f.refid == q) = some ref)
    (hreg : s.regions.find? (fun g => g.rid == ref.region) = some reg)
    (hdata : reg.data.length = reg.size)
    (hS : reg.size < sizetMod)
    (hlen : B.length = len)
    (hbound : offset + len ≤ reg.size) :
    (gc_write s (some q) offset (some B) len).2 = len ∧
    gc_read (gc_write s (some q) offset (some B) len).1 (some q) offset true len
      = (len, B) := by
  have hmod : (offset + len) % sizetMod = offset + len :=
    Nat.mod_eq_of_lt (lt_of_le_of_lt hbound hS)
  have hnb : ¬((offset + len) % sizetMod > reg.size) := by
    rw [hmod]
    omega
  have hW : gc_write s (some q) offset (some B) len
      = ({ s with regions := s.regions.map (fun g =>
            if g.rid == ref.region then
              { g with data := writeBytes g.data offset B len } else g) }, len) := by
    simp only [gc_write, href, hreg, if_neg hnb]
  refine ⟨by rw [hW], ?_⟩
  rw [hW]
  have hfind2 : ((s.regions.map (fun g =>
      if g.rid == ref.region then
        { g with data := writeBytes g.data offset B len } else g)).find?
          (fun g => g.rid == ref.region))
      = some { reg with data := writeBytes reg.data offset B len } := by
    rw [find?_rid_map_update s.regions ref.region
        (fun g => { g with data := writeBytes g.data offset B len }) (fun _ => rfl), hreg]
    rfl
  have hnb2 : ¬((offset + len) % sizetMod
      > ({ reg with data := writeBytes reg.data offset B len } : GCRegion).size) := hnb
  simp only [gc_read, href, hfind2, Bool.not_true, Bool.false_eq_true, if_false,
    if_neg hnb2]
  rw [writeBytes_read reg.data B offset len hlen (by omega)]

theorem gc_write_then_read_roundtrip_witness :
    (liveState.refs.find? (fun f => f.refid == 1) = some ⟨1, 0⟩ ∧
     liveState.regions.find? (fun g => g.rid == 0) = some ⟨0, 4, 1, [0, 0, 0, 0]⟩ ∧
     (⟨0, 4, 1, [0, 0, 0, 0]⟩ : GCRegion).data.length
       = (⟨0, 4, 1, [0, 0, 0, 0]⟩ : GCRegion).size ∧
     (⟨0, 4, 1, [0, 0, 0, 0]⟩ : GCRegion).size < sizetMod ∧
     ([9, 8] : List Nat).length = 2 ∧
     1 + 2 ≤ (⟨0, 4, 1, [0, 0, 0, 0]⟩ : GCRegion).size) ∧
    ((gc_write liveState (some 1) 1 (some [9, 8]) 2).2 = 2 ∧
     gc_read (gc_write liveState (some 1) 1 (some [9, 8]) 2).1 (some 1) 1 true 2
       = (2, [9, 8])) :=
  ⟨⟨by decide, by decide, by decide, by decide, by decide, by decide⟩,
   gc_write_then_read_roundtrip liveState 1 1 2 [9, 8] ⟨1, 0⟩ ⟨0, 4, 1, [0, 0, 0, 0]⟩
     (by decide) (by decide) (by decide) (by decide) (by decide) (by decide)⟩

/-- C8: on a successful `gc_free` of a valid handle, after the count
update: when the countdown is zero, a full sweep runs before `gc_free`
returns (the region list is exactly the swept list) and the countdown is
reseeded to `rand() % 10 + 1`, which lies in the range 1..10 for every
`rand()` value; otherwise the countdown is decremented by one and no sweep
runs (the region list is the un-swept list). -/
theorem gc_free_countdown_policy (s : GCState) (q r : Nat) (ref : GCRef)
    (hfind : s.refs.find? (fun f => f.refid == q) = some ref) :
    (s.next_collect = 0 →
      (gc_free s (some q) r).1.regions
          = (gc_free_core s ref).regions.filter (fun g => g.strong_refs != 0) ∧
      (gc_free s (some q) r).1.next_collect = r % 10 + 1 ∧
      1 ≤ (gc_free s (some q) r).1.next_collect ∧
      (gc_free s (some q) r).1.next_collect ≤ 10) ∧
    (s.next_collect ≠ 0 →
      (gc_free s (some q) r).1.regions = (gc_free_core s ref).regions ∧
      (gc_free s (some q) r).1.next_collect = s.next_collect - 1) := by
  have hnext : (gc_free_core s ref).next_collect = s.next_collect := rfl
  constructor
  · intro h0
    have hc : ((gc_free_core s ref).next_collect == 0) = true := by
      simp [hnext, h0]
    rw [gc_free_eq_zero s q r ref hfind hc]
    refine ⟨collect_regions _, rfl, ?_, ?_⟩
    · show 1 ≤ r % 10 + 1
      omega
    · show r % 10 + 1 ≤ 10
      have := Nat.mod_lt r (show 0 < 10 by norm_num)
      omega
  · intro hne
    have hc : ¬((gc_free_core s ref).next_collect == 0) = true := by
      simp [hnext, hne]
    rw [gc_free_eq_pos s q r ref hfind hc]
    refine ⟨rfl, ?_⟩
    show (gc_free_core s ref).next_collect - 1 = s.next_collect - 1
    rw [hnext]

theorem gc_free_countdown_policy_witness :
    bugState.refs.find? (fun f => f.refid == 1) = some ⟨1, 0⟩ ∧
    ((bugState.next_collect = 0 →
      (gc_free bugState (some 1) 13).1.regions
          = (gc_free_core bugState ⟨1, 0⟩).regions.filter (fun g => g.strong_refs != 0) ∧
      (gc_free bugState (some 1) 13).1.next_collect = 13 % 10 + 1 ∧
      1 ≤ (gc_free bugState (some 1) 13).1.next_collect ∧
      (gc_free bugState (some 1) 13).1.next_collect ≤ 10) ∧
    (bugState.next_collect ≠ 0 →
      (gc_free bugState (some 1) 13).1.regions = (gc_free_core bugState ⟨1, 0⟩).regions ∧
      (gc_free bugState (some 1) 13).1.next_collect = bugState.next_collect - 1)) :=
  ⟨by decide, gc_free_countdown_policy bugState 1 13 ⟨1, 0⟩ (by decide)⟩

/-- C4: `gc_collect` removes from the region list exactly the regions
whose `strong_refs` is zero (every region with a positive count stays, in
order and untouched), and `bytes_in_use` decreases by exactly the sum of
the removed regions' sizes.  In particular, after releasing the sole
reference to a region, a `gc_collect` leaves no region with that address
in the list and the aggregate `bytes_in_use` is down by that region's size
relative to the pre-release state. -/
theorem gc_collect_reclaims_unreferenced (s : GCState) (hInv : Inv s) :
    (gc_collect s).regions = s.regions.filter (fun g => g.strong_refs != 0) ∧
    (gc_collect s).bytes_in_use
        + ((s.regions.filter (fun g => g.strong_refs == 0)).map GCRegion.size).sum
      = s.bytes_in_use ∧
    (∀ g ∈ s.regions, g.strong_refs ≠ 0 → g ∈ (gc_collect s).regions) ∧
    (∀ (q r : Nat) (ref : GCRef) (reg : GCRegion),
      s.refs.find? (fun f => f.refid == q) = some ref →
      s.regions.find? (fun g => g.rid == ref.region) = some reg →
      reg.strong_refs = 1 →
      (∀ g ∈ s.regions, g.rid ≠ ref.region → g.strong_refs ≠ 0) →
      (∀ g ∈ (gc_collect (gc_free s (some q) r).1).regions, g.rid ≠ ref.region) ∧
      (gc_collect (gc_free s (some q) r).1).bytes_in_use + reg.size
        = s.bytes_in_use) := by
  obtain ⟨h1, h2, h3, h4, h5⟩ := hInv
  refine ⟨collect_regions s, ?_, ?_, ?_⟩
  · rw [collect_bytes]
    have := sum_filter_split s.regions
    omega
  · intro g hg hnz
    rw [collect_regions]
    exact List.mem_filter.2 ⟨hg, by simpa using hnz⟩
  · intro q r ref reg hfq hfg hone hothers
    obtain ⟨hshape_regions, hshape_bytes⟩ := free_then_collect_shape s q r ref hfq
    have hregmem : reg ∈ s.regions := List.mem_of_find?_eq_some hfg
    have hregrid : reg.rid = ref.region := by simpa using List.find?_some hfg
    have huniq : ∀ g ∈ s.regions, g.rid = ref.region → g = reg := by
      intro g hg hEq
      exact List.inj_on_of_nodup_map h1 hg hregmem (by rw [hEq, hregrid])
    constructor
    · intro g hg
      rw [hshape_regions] at hg
      have hg1 := List.mem_filter.1 hg
      rcases mem_update_elim _ _ _ _ hg1.1 with ⟨g0, hg0, hr0, rfl⟩ | ⟨_, hne⟩
      · obtain rfl : g0 = reg := huniq g0 hg0 hr0
        exfalso
        have hnz := hg1.2
        simp [hone] at hnz
      · exact hne
    · rw [hshape_bytes,
        sum_z_dec s.regions ref.region reg h1 huniq hregmem hregrid hone hothers]
      have hle : reg.size ≤ s.bytes_in_use := by
        rw [h5]
        exact List.single_le_sum (fun x _ => Nat.zero_le x) _
          (List.mem_map.2 ⟨reg, hregmem, rfl⟩)
      omega

theorem gc_collect_reclaims_unreferenced_witness :
    Inv liveState ∧
    ((gc_collect liveState).regions
        = liveState.regions.filter (fun g => g.strong_refs != 0) ∧
     (gc_collect liveState).bytes_in_use
        + ((liveState.regions.filter
              (fun g => g.strong_refs == 0)).map GCRegion.size).sum
      = liveState.bytes_in_use) :=
  ⟨by decide,
   ⟨(gc_collect_reclaims_unreferenced liveState (by decide)).1,
    (gc_collect_reclaims_unreferenced liveState (by decide)).2.1⟩⟩

end GarbageCollector
